import Mathlib

/-!
Verification of the Moving-Least-Squares image deformation code in
`img_utils_pytorch.py`.

The source computes, for each destination pixel of a grid, a source pixel
coordinate, using MLS with three per-pixel solvers (affine, similarity,
rigid).  2-D points are represented as complex numbers (`torch.view_as_complex`,
`torch.complex`): the real part is the row coordinate, the imaginary part the
column coordinate.  Float arithmetic is modelled over `ℝ`/`ℂ`; the places
where the code divides by a quantity that can be zero (producing NaN in
PyTorch, or raising in `torch.linalg.inv`) are modelled with `Option`:
`none` stands for a non-finite / aborted result at that pixel.
-/

open scoped BigOperators
open scoped Classical

namespace MLS

noncomputable section

/-- Build a complex number from its real and imaginary parts; this is
`torch.complex(x, y)` / `torch.view_as_complex` on a trailing pair. -/
def c2 (x y : ℝ) : ℂ := ⟨x, y⟩

/-- The canonical destination grid: cell `(i, j)` holds its own coordinate,
row `i` as the real part and column `j` as the imaginary part
(`np.meshgrid` of the integer ranges). -/
def vGrid (i j : ℕ) : ℂ := c2 i j

/-- Raw (unnormalised) MLS weight of control point `pts j` at query `v`:
`w = 1 / (|p - v|^2 + eps) ^ alpha`  (line `w = 1 / (torch.abs(_p - _v) ** 2 + eps) ** alpha`). -/
def rawWeight {n : ℕ} (pts : Fin n → ℂ) (alpha eps : ℝ) (v : ℂ) (j : Fin n) : ℝ :=
  1 / ((Complex.abs (pts j - v) ^ 2 + eps) ^ alpha)

/-- Sum of the raw weights at a query point (the `torch.sum(w, axis=2)` normaliser). -/
def wSum {n : ℕ} (pts : Fin n → ℂ) (alpha eps : ℝ) (v : ℂ) : ℝ :=
  ∑ j, rawWeight pts alpha eps v j

/-- Normalised MLS weight (line `w /= torch.sum(w, axis=2, keepdims=True)`). -/
def weight {n : ℕ} (pts : Fin n → ℂ) (alpha eps : ℝ) (v : ℂ) (j : Fin n) : ℝ :=
  rawWeight pts alpha eps v j / wSum pts alpha eps v

/-- Weighted centroid of a point set (`torch.sum(w * _p, axis=2)`), used for
both `_pstar` and `_qstar`. -/
def cstar {n : ℕ} (w : Fin n → ℝ) (pts : Fin n → ℂ) : ℂ :=
  ∑ j, (w j : ℂ) * pts j

/-- The numerator `_M = Σ_j conj(p_j - pstar) * w_j * (q_j - qstar)` shared by
the similarity and rigid solvers. -/
def Mnum {n : ℕ} (w : Fin n → ℝ) (q : Fin n → ℂ) (qstar : ℂ) (p : Fin n → ℂ)
    (pstar : ℂ) : ℂ :=
  ∑ j, (starRingEnd ℂ) (p j - pstar) * (w j : ℂ) * (q j - qstar)

/-- The normaliser `mu = Σ_j w_j * |p_j - pstar|^2` of the similarity solver. -/
def muSim {n : ℕ} (w : Fin n → ℝ) (p : Fin n → ℂ) (pstar : ℂ) : ℝ :=
  ∑ j, w j * Complex.abs (p j - pstar) ^ 2

/-- `similarity_solver(w, _q, _qstar, _p, _pstar, _v)`:
returns `(v - pstar) * (_M / mu) + qstar`; when `mu = 0` the float code
computes `0/0 = NaN`, modelled as `none`. -/
def similarity_solver {n : ℕ} (w : Fin n → ℝ) (q : Fin n → ℂ) (qstar : ℂ)
    (p : Fin n → ℂ) (pstar : ℂ) (v : ℂ) : Option ℂ :=
  if muSim w p pstar = 0 then none
  else some ((v - pstar) * (Mnum w q qstar p pstar / ((muSim w p pstar : ℝ) : ℂ)) + qstar)

/-- `rigid_solver(w, _q, _qstar, _p, _pstar, _v)`:
returns `(v - pstar) * (_M / |_M|) + qstar`; when `_M = 0` the float code
computes `0/0 = NaN`, modelled as `none`. -/
def rigid_solver {n : ℕ} (w : Fin n → ℝ) (q : Fin n → ℂ) (qstar : ℂ)
    (p : Fin n → ℂ) (pstar : ℂ) (v : ℂ) : Option ℂ :=
  if Mnum w q qstar p pstar = 0 then none
  else some ((v - pstar) *
      (Mnum w q qstar p pstar / ((Complex.abs (Mnum w q qstar p pstar) : ℝ) : ℂ)) + qstar)

/-- A complex number viewed as the real row vector `(re, im)`
(`torch.view_as_real`). -/
def vec2 (z : ℂ) : Fin 2 → ℝ := ![z.re, z.im]

/-- Outer product of two points viewed as real 2-vectors: the `2×2` block
`phat^T * qhat` built by the broadcasting in `affine_solver`. -/
def outer (u v : ℂ) : Matrix (Fin 2) (Fin 2) ℝ :=
  Matrix.of fun a b => vec2 u a * vec2 v b

/-- The weighted covariance `pTwp = Σ_j phat_j^T * w_j * phat_j` of the affine
solver. -/
def affA {n : ℕ} (w : Fin n → ℝ) (p : Fin n → ℂ) (pstar : ℂ) :
    Matrix (Fin 2) (Fin 2) ℝ :=
  ∑ j, w j • outer (p j - pstar) (p j - pstar)

/-- The weighted cross term `pTwq = Σ_j phat_j^T * w_j * (q_j - qstar)` of the
affine solver. -/
def affB {n : ℕ} (w : Fin n → ℝ) (q : Fin n → ℂ) (qstar : ℂ) (p : Fin n → ℂ)
    (pstar : ℂ) : Matrix (Fin 2) (Fin 2) ℝ :=
  ∑ j, w j • outer (p j - pstar) (q j - qstar)

/-- `affine_solver(w, _q, _qstar, _p, _pstar, _v)`:
`M = torch.linalg.inv(pTwp) @ pTwq`, result `(v - pstar) @ M + qstar`.
`torch.linalg.inv` fails on a singular matrix (no finite result), modelled as
`none` when `det pTwp = 0`; on an invertible matrix it is the true inverse. -/
def affine_solver {n : ℕ} (w : Fin n → ℝ) (q : Fin n → ℂ) (qstar : ℂ)
    (p : Fin n → ℂ) (pstar : ℂ) (v : ℂ) : Option ℂ :=
  if (affA w p pstar).det = 0 then none
  else
    some (c2 (Matrix.vecMul (vec2 (v - pstar)) ((affA w p pstar)⁻¹ * affB w q qstar p pstar) 0
              + qstar.re)
             (Matrix.vecMul (vec2 (v - pstar)) ((affA w p pstar)⁻¹ * affB w q qstar p pstar) 1
              + qstar.im))

/-- `torch.clamp(x, 0, hi)`: clamp a coordinate component into `[0, hi]`. -/
def clampR (hi x : ℝ) : ℝ := min (max x 0) hi

/-- `.long()`: truncation toward zero to an integer. -/
def truncZ (x : ℝ) : ℤ := if 0 ≤ x then ⌊x⌋ else ⌈x⌉

/-- `mls_deformation(vy, vx, p, q, alpha, eps, solver)` at pixel `(i, j)` of a
`rows × cols` grid.  Mirrors the source line by line: first the exchange
`p, q = q, p`, then weights, the two centroids, the solver, then per-component
clamping of the real part into `[0, rows-1]` and the imaginary part into
`[0, cols-1]`, then truncation to integers.  A non-finite solver result
(`none`) propagates. -/
def mls_deformation {n : ℕ} (rows cols : ℕ) (grid : ℕ → ℕ → ℂ)
    (p q : Fin n → ℂ) (alpha eps : ℝ)
    (solver : (Fin n → ℝ) → (Fin n → ℂ) → ℂ → (Fin n → ℂ) → ℂ → ℂ → Option ℂ)
    (i j : ℕ) : Option (ℤ × ℤ) :=
  let p2 := q
  let q2 := p
  let v := grid i j
  let w := weight p2 alpha eps v
  let pstar := cstar w p2
  let qstar := cstar w q2
  (solver w q2 qstar p2 pstar v).map fun t =>
    (truncZ (clampR ((rows : ℝ) - 1) t.re), truncZ (clampR ((cols : ℝ) - 1) t.im))

/-- The same pipeline with the roles of the two point sets NOT exchanged:
the weighting, centroids and solver run on the point sets exactly as passed.
This is the comparison definition for the role-swap claim. -/
def mls_deformation_unswapped {n : ℕ} (rows cols : ℕ) (grid : ℕ → ℕ → ℂ)
    (p q : Fin n → ℂ) (alpha eps : ℝ)
    (solver : (Fin n → ℝ) → (Fin n → ℂ) → ℂ → (Fin n → ℂ) → ℂ → ℂ → Option ℂ)
    (i j : ℕ) : Option (ℤ × ℤ) :=
  let v := grid i j
  let w := weight p alpha eps v
  let pstar := cstar w p
  let qstar := cstar w q
  (solver w q qstar p pstar v).map fun t =>
    (truncZ (clampR ((rows : ℝ) - 1) t.re), truncZ (clampR ((cols : ℝ) - 1) t.im))

/-- `mls_affine_deformation`. -/
def mls_affine_deformation {n : ℕ} (rows cols : ℕ) (grid : ℕ → ℕ → ℂ)
    (p q : Fin n → ℂ) (alpha eps : ℝ) (i j : ℕ) : Option (ℤ × ℤ) :=
  mls_deformation rows cols grid p q alpha eps affine_solver i j

/-- `mls_similarity_deformation`. -/
def mls_similarity_deformation {n : ℕ} (rows cols : ℕ) (grid : ℕ → ℕ → ℂ)
    (p q : Fin n → ℂ) (alpha eps : ℝ) (i j : ℕ) : Option (ℤ × ℤ) :=
  mls_deformation rows cols grid p q alpha eps similarity_solver i j

/-- `mls_rigid_deformation`. -/
def mls_rigid_deformation {n : ℕ} (rows cols : ℕ) (grid : ℕ → ℕ → ℂ)
    (p q : Fin n → ℂ) (alpha eps : ℝ) (i j : ℕ) : Option (ℤ × ℤ) :=
  mls_deformation rows cols grid p q alpha eps rigid_solver i j

/-- The raw MLS weight is strictly positive whenever `eps > 0`. -/
lemma rawWeight_pos {n : ℕ} (pts : Fin n → ℂ) (alpha eps : ℝ) (v : ℂ)
    (heps : 0 < eps) (j : Fin n) : 0 < rawWeight pts alpha eps v j := by
  have hb : 0 < Complex.abs (pts j - v) ^ 2 + eps := by
    have := sq_nonneg (Complex.abs (pts j - v))
    nlinarith
  have hp := Real.rpow_pos_of_pos hb alpha
  simpa [rawWeight] using one_div_pos.mpr hp

/-- The per-pixel weight normaliser is strictly positive. -/
lemma wSum_pos {n : ℕ} (pts : Fin n → ℂ) (alpha eps : ℝ) (v : ℂ)
    (hn : 0 < n) (heps : 0 < eps) : 0 < wSum pts alpha eps v := by
  have : Nonempty (Fin n) := ⟨⟨0, hn⟩⟩
  exact Finset.sum_pos (fun j _ => rawWeight_pos pts alpha eps v heps j)
    Finset.univ_nonempty

/-- Each normalised weight is strictly positive. -/
lemma weight_pos {n : ℕ} (pts : Fin n → ℂ) (alpha eps : ℝ) (v : ℂ)
    (hn : 0 < n) (heps : 0 < eps) (j : Fin n) : 0 < weight pts alpha eps v j :=
  div_pos (rawWeight_pos pts alpha eps v heps j) (wSum_pos pts alpha eps v hn heps)

/-- The normalised weights sum to `1` at every pixel. -/
lemma weight_sum_one {n : ℕ} (pts : Fin n → ℂ) (alpha eps : ℝ) (v : ℂ)
    (hn : 0 < n) (heps : 0 < eps) : ∑ j, weight pts alpha eps v j = 1 := by
  have hS : wSum pts alpha eps v ≠ 0 := (wSum_pos pts alpha eps v hn heps).ne'
  simp only [weight, ← Finset.sum_div]
  show wSum pts alpha eps v / wSum pts alpha eps v = 1
  exact div_self hS

/-- With `q = p` and `qstar = pstar`, the similarity/rigid numerator collapses
to the real normaliser `mu`. -/
lemma Mnum_self {n : ℕ} (w : Fin n → ℝ) (p : Fin n → ℂ) (pstar : ℂ) :
    Mnum w p pstar p pstar = ((muSim w p pstar : ℝ) : ℂ) := by
  simp only [Mnum, muSim, Complex.ofReal_sum]
  refine Finset.sum_congr rfl fun j _ => ?_
  have h1 : ((Complex.abs (p j - pstar) ^ 2 : ℝ) : ℂ)
      = (p j - pstar) * (starRingEnd ℂ) (p j - pstar) := by
    rw [Complex.sq_abs]
    exact (Complex.mul_conj _).symm
  rw [Complex.ofReal_mul, h1]
  ring

/-- `mu` is a sum of non-negative terms when the weights are non-negative. -/
lemma muSim_nonneg {n : ℕ} (w : Fin n → ℝ) (p : Fin n → ℂ) (pstar : ℂ)
    (hw : ∀ j, 0 ≤ w j) : 0 ≤ muSim w p pstar :=
  Finset.sum_nonneg fun j _ => mul_nonneg (hw j) (sq_nonneg _)

lemma c2_re (x y : ℝ) : (c2 x y).re = x := rfl

lemma c2_im (x y : ℝ) : (c2 x y).im = y := rfl

lemma vGrid_re (i j : ℕ) : (vGrid i j).re = i := rfl

lemma vGrid_im (i j : ℕ) : (vGrid i j).im = j := rfl

/-- When every control point maps to itself and `mu ≠ 0`, the similarity
solver is the identity at the query point. -/
lemma similarity_solver_self {n : ℕ} (w : Fin n → ℝ) (p : Fin n → ℂ) (pstar v : ℂ)
    (hmu : muSim w p pstar ≠ 0) :
    similarity_solver w p pstar p pstar v = some v := by
  rw [similarity_solver, if_neg hmu, Mnum_self,
    div_self (Complex.ofReal_ne_zero.mpr hmu)]
  congr 1
  ring

/-- When every control point maps to itself, the weights are non-negative and
`mu ≠ 0`, the rigid solver is the identity at the query point. -/
lemma rigid_solver_self {n : ℕ} (w : Fin n → ℝ) (p : Fin n → ℂ) (pstar v : ℂ)
    (hw : ∀ j, 0 ≤ w j) (hmu : muSim w p pstar ≠ 0) :
    rigid_solver w p pstar p pstar v = some v := by
  have hM : Mnum w p pstar p pstar = ((muSim w p pstar : ℝ) : ℂ) := Mnum_self w p pstar
  have hMne : Mnum w p pstar p pstar ≠ 0 := by
    rw [hM]
    exact Complex.ofReal_ne_zero.mpr hmu
  rw [rigid_solver, if_neg hMne, hM, Complex.abs_ofReal,
    abs_of_nonneg (muSim_nonneg w p pstar hw),
    div_self (Complex.ofReal_ne_zero.mpr hmu)]
  congr 1
  ring

/-- With `q = p` and `qstar = pstar` the cross term equals the covariance. -/
lemma affB_self {n : ℕ} (w : Fin n → ℝ) (p : Fin n → ℂ) (pstar : ℂ) :
    affB w p pstar p pstar = affA w p pstar := rfl

/-- When every control point maps to itself and the covariance is invertible,
the affine solver is the identity at the query point. -/
lemma affine_solver_self {n : ℕ} (w : Fin n → ℝ) (p : Fin n → ℂ) (pstar v : ℂ)
    (hA : (affA w p pstar).det ≠ 0) :
    affine_solver w p pstar p pstar v = some v := by
  rw [affine_solver, if_neg hA, affB_self,
    Matrix.nonsing_inv_mul _ (isUnit_iff_ne_zero.mpr hA), Matrix.vecMul_one]
  congr 1
  apply Complex.ext
  · simp [c2_re, vec2, Complex.sub_re]
  · simp [c2_im, vec2, Complex.sub_im]

/-- If all (internal) control points coincide with the centroid, `mu = 0`. -/
lemma muSim_coincident {n : ℕ} (w : Fin n → ℝ) (p : Fin n → ℂ) (pstar : ℂ)
    (hp : ∀ j, p j = pstar) : muSim w p pstar = 0 := by
  simp [muSim, hp]

/-- If all (internal) control points coincide with the centroid, `_M = 0`. -/
lemma Mnum_coincident {n : ℕ} (w : Fin n → ℝ) (q : Fin n → ℂ) (qstar : ℂ)
    (p : Fin n → ℂ) (pstar : ℂ) (hp : ∀ j, p j = pstar) :
    Mnum w q qstar p pstar = 0 := by
  simp [Mnum, hp]

lemma outer_zero_left (z : ℂ) : outer 0 z = 0 := by
  ext a b
  fin_cases a <;> simp [outer, vec2]

/-- If all (internal) control points coincide with the centroid, the weighted
covariance is the zero matrix. -/
lemma affA_coincident {n : ℕ} (w : Fin n → ℝ) (p : Fin n → ℂ) (pstar : ℂ)
    (hp : ∀ j, p j = pstar) : affA w p pstar = 0 := by
  have h : ∀ j, p j - pstar = 0 := fun j => sub_eq_zero.mpr (hp j)
  simp [affA, h, outer_zero_left]

lemma det_zero_two : (0 : Matrix (Fin 2) (Fin 2) ℝ).det = 0 := by
  simp [Matrix.det_fin_two]

/-- At a pixel where all (internal) control points coincide with the centroid,
all three solvers divide by zero: no finite value is produced. -/
lemma solvers_none_of_coincident {n : ℕ} (w : Fin n → ℝ) (q : Fin n → ℂ)
    (qstar : ℂ) (p : Fin n → ℂ) (pstar v : ℂ) (hp : ∀ j, p j = pstar) :
    affine_solver w q qstar p pstar v = none ∧
    similarity_solver w q qstar p pstar v = none ∧
    rigid_solver w q qstar p pstar v = none := by
  refine ⟨?_, ?_, ?_⟩
  · have h : (affA w p pstar).det = 0 := by
      rw [affA_coincident w p pstar hp]
      exact det_zero_two
    rw [affine_solver, if_pos h]
  · rw [similarity_solver, if_pos (muSim_coincident w p pstar hp)]
  · rw [rigid_solver, if_pos (Mnum_coincident w q qstar p pstar hp)]

lemma clampR_nonneg (hi x : ℝ) (h : 0 ≤ hi) : 0 ≤ clampR hi x :=
  le_min (le_max_right x 0) h

lemma clampR_le_hi (hi x : ℝ) : clampR hi x ≤ hi := min_le_right _ _

lemma truncZ_of_nonneg {x : ℝ} (h : 0 ≤ x) : truncZ x = ⌊x⌋ := if_pos h

/-- Clamping into `[0, rows-1]` then truncating lands in `[0, rows-1]` as an
integer, for any real input. -/
lemma truncZ_clampR_mem (rows : ℕ) (hrows : 1 ≤ rows) (x : ℝ) :
    0 ≤ truncZ (clampR ((rows : ℝ) - 1) x) ∧
    truncZ (clampR ((rows : ℝ) - 1) x) ≤ (rows : ℤ) - 1 := by
  have hhi : (0 : ℝ) ≤ (rows : ℝ) - 1 := by
    have h1 : (1 : ℝ) ≤ (rows : ℝ) := by exact_mod_cast hrows
    linarith
  have h0 : 0 ≤ clampR ((rows : ℝ) - 1) x := clampR_nonneg _ x hhi
  rw [truncZ_of_nonneg h0]
  constructor
  · exact Int.floor_nonneg.mpr h0
  · have hle : clampR ((rows : ℝ) - 1) x ≤ (((rows : ℤ) - 1 : ℤ) : ℝ) := by
      push_cast
      exact clampR_le_hi _ x
    have hf := Int.floor_mono hle
    simpa [Int.floor_intCast] using hf

/-- An in-range integer coordinate is a fixed point of clamp-and-truncate. -/
lemma clamp_trunc_coord (rows i : ℕ) (hi : i < rows) :
    truncZ (clampR ((rows : ℝ) - 1) (i : ℝ)) = (i : ℤ) := by
  have h0 : (0 : ℝ) ≤ (i : ℝ) := Nat.cast_nonneg i
  have hle : (i : ℝ) ≤ (rows : ℝ) - 1 := by
    have h1 : ((i : ℝ) + 1) ≤ (rows : ℝ) := by exact_mod_cast hi
    linarith
  have hc : clampR ((rows : ℝ) - 1) (i : ℝ) = (i : ℝ) := by
    rw [clampR, max_eq_left h0, min_eq_left hle]
  rw [hc, truncZ_of_nonneg h0, Int.floor_natCast]

/-- Generic identity lemma: if the solver returns the query point itself at a
canonical in-range pixel, the whole pipeline returns that pixel's indices. -/
lemma deform_self_pixel {n : ℕ} (rows cols : ℕ) (p : Fin n → ℂ) (alpha eps : ℝ)
    (solver : (Fin n → ℝ) → (Fin n → ℂ) → ℂ → (Fin n → ℂ) → ℂ → ℂ → Option ℂ)
    (i j : ℕ)
    (hsolver : solver (weight p alpha eps (vGrid i j)) p
        (cstar (weight p alpha eps (vGrid i j)) p) p
        (cstar (weight p alpha eps (vGrid i j)) p) (vGrid i j)
        = some (vGrid i j))
    (hi : i < rows) (hj : j < cols) :
    mls_deformation rows cols vGrid p p alpha eps solver i j
      = some ((i : ℤ), (j : ℤ)) := by
  simp only [mls_deformation]
  rw [hsolver, Option.map_some']
  rw [vGrid_re, vGrid_im]
  rw [clamp_trunc_coord rows i hi, clamp_trunc_coord cols j hj]

/-- For positive weights on the two control points `0` and `1`, the
similarity normaliser at centroid `w 1` is strictly positive. -/
lemma muSim_pair_pos (w : Fin 2 → ℝ) (hw0 : 0 < w 0) (hw1 : 0 < w 1) :
    0 < muSim w ![0, 1] ((w 1 : ℝ) : ℂ) := by
  simp only [muSim, Fin.sum_univ_two, Matrix.cons_val_zero, Matrix.cons_val_one,
    Matrix.head_cons]
  have k0 : (0 : ℂ) - ((w 1 : ℝ) : ℂ) = (((0 : ℝ) - w 1 : ℝ) : ℂ) := by
    push_cast
    ring
  have k1 : (1 : ℂ) - ((w 1 : ℝ) : ℂ) = (((1 : ℝ) - w 1 : ℝ) : ℂ) := by
    push_cast
    ring
  rw [k0, k1, Complex.abs_ofReal, Complex.abs_ofReal, sq_abs, sq_abs]
  have h1 : 0 < w 0 * ((0 : ℝ) - w 1) ^ 2 := by
    have hsq : ((0 : ℝ) - w 1) ^ 2 = (w 1) ^ 2 := by ring
    rw [hsq]
    exact mul_pos hw0 (pow_pos hw1 2)
  have h2 : 0 ≤ w 1 * ((1 : ℝ) - w 1) ^ 2 := mul_nonneg hw1.le (sq_nonneg _)
  linarith

/-- The centroid of the pair `(0, 1)` is the weight of the second point. -/
lemma cstar_pair (w : Fin 2 → ℝ) :
    cstar w ![0, 1] = ((w 1 : ℝ) : ℂ) := by
  simp [cstar, Fin.sum_univ_two]

/-- For the control pair `p = q = [0, 1]`, the similarity normaliser is
positive at every query point, for every `alpha` (with `eps = 1`). -/
lemma muSim_unit_square_pos (alpha : ℝ) (v : ℂ) :
    0 < muSim (weight (![0, 1] : Fin 2 → ℂ) alpha 1 v) ![0, 1]
      (cstar (weight (![0, 1] : Fin 2 → ℂ) alpha 1 v) ![0, 1]) := by
  have hw0 : 0 < weight (![0, 1] : Fin 2 → ℂ) alpha 1 v 0 :=
    weight_pos _ alpha 1 v (by norm_num) (by norm_num) 0
  have hw1 : 0 < weight (![0, 1] : Fin 2 → ℂ) alpha 1 v 1 :=
    weight_pos _ alpha 1 v (by norm_num) (by norm_num) 1
  rw [cstar_pair]
  exact muSim_pair_pos _ hw0 hw1

/-- For `p = q = [0, 1]` on the `1×1` grid the similarity deformation returns
the grid coordinate, for every `alpha` whatsoever: no input validation ever
rejects the call. -/
lemma sim_unit_square_all_alpha (alpha : ℝ) :
    mls_similarity_deformation 1 1 vGrid (![0, 1] : Fin 2 → ℂ) ![0, 1] alpha 1 0 0
      = some ((0 : ℤ), (0 : ℤ)) := by
  rw [mls_similarity_deformation]
  exact deform_self_pixel 1 1 ![0, 1] alpha 1 similarity_solver 0 0
    (similarity_solver_self _ _ _ _ (muSim_unit_square_pos alpha (vGrid 0 0)).ne')
    (by norm_num) (by norm_num)

/-- C3: at every pixel `v`, the raw weight of control point `pts j` is
`1 / (|pts j - v|^2 + eps)^alpha`, and the normalised weights at that pixel
sum to `1` (exactly, in real arithmetic). -/
theorem C3_weight_formula_and_sum {n : ℕ} (pts : Fin n → ℂ) (alpha eps : ℝ)
    (v : ℂ) (hn : 0 < n) (halpha : 0 < alpha) (heps : 0 < eps) :
    (∀ j, rawWeight pts alpha eps v j
        = 1 / ((Complex.abs (pts j - v) ^ 2 + eps) ^ alpha)) ∧
    ∑ j, weight pts alpha eps v j = 1 :=
  ⟨fun _ => rfl, weight_sum_one pts alpha eps v hn heps⟩

/-- Witness for C3 at the concrete input `n = 1`, `pts = [0]`,
`alpha = eps = 1`, `v = 0`. -/
theorem C3_weight_witness :
    ∑ j, weight (![0] : Fin 1 → ℂ) 1 1 0 j = 1 :=
  (C3_weight_formula_and_sum ![0] 1 1 0 (by norm_num) (by norm_num) (by norm_num)).2

/-- C10: every normalised weight is strictly positive (hence each control
point has non-zero influence everywhere), and the weights at every pixel sum
to `1`, so the centroids are strict convex combinations. -/
theorem C10_weights_positive {n : ℕ} (pts : Fin n → ℂ) (alpha eps : ℝ) (v : ℂ)
    (halpha : 0 < alpha) (heps : 0 < eps) (j : Fin n) :
    0 < weight pts alpha eps v j ∧ ∑ k, weight pts alpha eps v k = 1 := by
  have hn : 0 < n := j.pos
  exact ⟨weight_pos pts alpha eps v hn heps j, weight_sum_one pts alpha eps v hn heps⟩

/-- Witness for C10 at the concrete input `n = 1`, `pts = [0]`,
`alpha = eps = 1`, `v = 0`, `j = 0`. -/
theorem C10_weights_witness :
    0 < weight (![0] : Fin 1 → ℂ) 1 1 0 0 ∧
    ∑ k, weight (![0] : Fin 1 → ℂ) 1 1 0 k = 1 :=
  C10_weights_positive ![0] 1 1 0 (by norm_num) (by norm_num) 0

/-- C6: the entry point first exchanges the two control-point sets
(`p, q = q, p`), so running it on `(p, q)` is the unswapped
weighting/centroid/solver machinery run on `(q, p)`: the produced grid is a
backward map from destination pixels to source coordinates. -/
theorem C6_role_swap {n : ℕ} (rows cols : ℕ) (grid : ℕ → ℕ → ℂ)
    (p q : Fin n → ℂ) (alpha eps : ℝ)
    (solver : (Fin n → ℝ) → (Fin n → ℂ) → ℂ → (Fin n → ℂ) → ℂ → ℂ → Option ℂ)
    (i j : ℕ) :
    mls_deformation rows cols grid p q alpha eps solver i j
      = mls_deformation_unswapped rows cols grid q p alpha eps solver i j := rfl

/-- C7: wherever `Mnum ≠ 0`, the rigid solver applies the factor
`Mnum / |Mnum|`, and that factor has magnitude exactly `1`. -/
theorem C7_rigid_unit_factor {n : ℕ} (w : Fin n → ℝ) (q : Fin n → ℂ)
    (qstar : ℂ) (p : Fin n → ℂ) (pstar v : ℂ)
    (h : Mnum w q qstar p pstar ≠ 0) :
    rigid_solver w q qstar p pstar v
      = some ((v - pstar) *
          (Mnum w q qstar p pstar
            / ((Complex.abs (Mnum w q qstar p pstar) : ℝ) : ℂ)) + qstar) ∧
    Complex.abs (Mnum w q qstar p pstar
        / ((Complex.abs (Mnum w q qstar p pstar) : ℝ) : ℂ)) = 1 := by
  constructor
  · rw [rigid_solver, if_neg h]
  · rw [map_div₀, Complex.abs_ofReal, abs_of_nonneg (Complex.abs.nonneg _)]
    exact div_self (Complex.abs.ne_zero h)

/-- Witness for C7 at the concrete input `w = [1]`, `p = q = [1]`,
`pstar = qstar = 0`, `v = 0`, where `Mnum = 1`. -/
theorem C7_rigid_witness :
    rigid_solver (![1] : Fin 1 → ℝ) (![1] : Fin 1 → ℂ) 0 ![1] 0 0
      = some ((0 - 0) *
          (Mnum (![1] : Fin 1 → ℝ) (![1] : Fin 1 → ℂ) 0 ![1] 0
            / ((Complex.abs (Mnum (![1] : Fin 1 → ℝ) (![1] : Fin 1 → ℂ) 0 ![1] 0) : ℝ) : ℂ)) + 0) ∧
    Complex.abs (Mnum (![1] : Fin 1 → ℝ) (![1] : Fin 1 → ℂ) 0 ![1] 0
        / ((Complex.abs (Mnum (![1] : Fin 1 → ℝ) (![1] : Fin 1 → ℂ) 0 ![1] 0) : ℝ) : ℂ)) = 1 :=
  C7_rigid_unit_factor ![1] ![1] 0 ![1] 0 0 (by
    have h1 : Mnum (![1] : Fin 1 → ℝ) (![1] : Fin 1 → ℂ) 0 ![1] 0 = 1 := by
      simp [Mnum, Fin.sum_univ_one]
    rw [h1]
    exact one_ne_zero)

/-- C1: with all control points coincident (`p = q = [(0,0),(0,0)]`), every
solver's normaliser is degenerate at every pixel of the 2×2 grid: the code
divides by zero (affine: singular covariance, similarity: `mu = 0`, rigid:
`Mnum = 0`) and produces no finite value — it does not fall back to the
identity mapping at the affected pixels. -/
theorem C1_coincident_degenerate (i j : ℕ) :
    mls_affine_deformation 2 2 vGrid (![0, 0] : Fin 2 → ℂ) ![0, 0] 1
        (1 / 100000000) i j = none ∧
    mls_similarity_deformation 2 2 vGrid (![0, 0] : Fin 2 → ℂ) ![0, 0] 1
        (1 / 100000000) i j = none ∧
    mls_rigid_deformation 2 2 vGrid (![0, 0] : Fin 2 → ℂ) ![0, 0] 1
        (1 / 100000000) i j = none := by
  have hp : ∀ k : Fin 2, (![0, 0] : Fin 2 → ℂ) k
      = cstar (weight (![0, 0] : Fin 2 → ℂ) 1 (1 / 100000000) (vGrid i j)) ![0, 0] := by
    have hc : cstar (weight (![0, 0] : Fin 2 → ℂ) 1 (1 / 100000000) (vGrid i j)) ![0, 0]
        = 0 := by
      simp [cstar, Fin.sum_univ_two]
    intro k
    rw [hc]
    fin_cases k <;> rfl
  obtain ⟨ha, hs, hr⟩ := solvers_none_of_coincident
    (weight (![0, 0] : Fin 2 → ℂ) 1 (1 / 100000000) (vGrid i j)) ![0, 0]
    (cstar (weight (![0, 0] : Fin 2 → ℂ) 1 (1 / 100000000) (vGrid i j)) ![0, 0]) ![0, 0]
    (cstar (weight (![0, 0] : Fin 2 → ℂ) 1 (1 / 100000000) (vGrid i j)) ![0, 0])
    (vGrid i j) hp
  refine ⟨?_, ?_, ?_⟩
  · simp only [mls_affine_deformation, mls_deformation, ha, Option.map_none']
  · simp only [mls_similarity_deformation, mls_deformation, hs, Option.map_none']
  · simp only [mls_rigid_deformation, mls_deformation, hr, Option.map_none']

/-- C2: with the single control point `p = [(0,0)]`, `q = [(1,1)]`, the one
normalised weight is `1`, the centroid coincides with the single (swapped)
control point, and all three normalisers vanish: at every pixel of the 2×2
grid the code divides by zero and produces no finite value — not the claimed
pure translation. -/
theorem C2_single_point_degenerate (i j : ℕ) :
    mls_affine_deformation 2 2 vGrid (![0] : Fin 1 → ℂ) ![c2 1 1] 1
        (1 / 100000000) i j = none ∧
    mls_similarity_deformation 2 2 vGrid (![0] : Fin 1 → ℂ) ![c2 1 1] 1
        (1 / 100000000) i j = none ∧
    mls_rigid_deformation 2 2 vGrid (![0] : Fin 1 → ℂ) ![c2 1 1] 1
        (1 / 100000000) i j = none := by
  have hw : weight (![c2 1 1] : Fin 1 → ℂ) 1 (1 / 100000000) (vGrid i j) 0 = 1 := by
    have hpos := rawWeight_pos (![c2 1 1] : Fin 1 → ℂ) 1 (1 / 100000000) (vGrid i j)
      (by norm_num) 0
    simp only [weight, wSum, Fin.sum_univ_one]
    exact div_self hpos.ne'
  have hp : ∀ k : Fin 1, (![c2 1 1] : Fin 1 → ℂ) k
      = cstar (weight (![c2 1 1] : Fin 1 → ℂ) 1 (1 / 100000000) (vGrid i j)) ![c2 1 1] := by
    have hc : cstar (weight (![c2 1 1] : Fin 1 → ℂ) 1 (1 / 100000000) (vGrid i j)) ![c2 1 1]
        = c2 1 1 := by
      simp only [cstar, Fin.sum_univ_one]
      rw [hw]
      simp
    intro k
    rw [hc]
    fin_cases k <;> rfl
  obtain ⟨ha, hs, hr⟩ := solvers_none_of_coincident
    (weight (![c2 1 1] : Fin 1 → ℂ) 1 (1 / 100000000) (vGrid i j)) ![0]
    (cstar (weight (![c2 1 1] : Fin 1 → ℂ) 1 (1 / 100000000) (vGrid i j)) ![0]) ![c2 1 1]
    (cstar (weight (![c2 1 1] : Fin 1 → ℂ) 1 (1 / 100000000) (vGrid i j)) ![c2 1 1])
    (vGrid i j) hp
  refine ⟨?_, ?_, ?_⟩
  · simp only [mls_affine_deformation, mls_deformation, ha, Option.map_none']
  · simp only [mls_similarity_deformation, mls_deformation, hs, Option.map_none']
  · simp only [mls_rigid_deformation, mls_deformation, hr, Option.map_none']

/-- C4 counterexample: for `p = q = [(0,0)]` (a valid p == q configuration)
on the 1×1 grid, the output at pixel (0,0) is NOT the grid coordinate: the
similarity normaliser is zero, so the code divides by zero and no finite
value is produced. -/
theorem C4_counterexample :
    ¬ (mls_similarity_deformation 1 1 vGrid (![0] : Fin 1 → ℂ) ![0] 1
        (1 / 100000000) 0 0 = some ((0 : ℤ), (0 : ℤ))) := by
  have hp : ∀ k : Fin 1, (![0] : Fin 1 → ℂ) k
      = cstar (weight (![0] : Fin 1 → ℂ) 1 (1 / 100000000) (vGrid 0 0)) ![0] := by
    have hc : cstar (weight (![0] : Fin 1 → ℂ) 1 (1 / 100000000) (vGrid 0 0)) ![0] = 0 := by
      simp [cstar, Fin.sum_univ_one]
    intro k
    rw [hc]
    fin_cases k <;> rfl
  obtain ⟨-, hs, -⟩ := solvers_none_of_coincident
    (weight (![0] : Fin 1 → ℂ) 1 (1 / 100000000) (vGrid 0 0)) ![0]
    (cstar (weight (![0] : Fin 1 → ℂ) 1 (1 / 100000000) (vGrid 0 0)) ![0]) ![0]
    (cstar (weight (![0] : Fin 1 → ℂ) 1 (1 / 100000000) (vGrid 0 0)) ![0])
    (vGrid 0 0) hp
  simp only [mls_similarity_deformation, mls_deformation, hs, Option.map_none']
  exact fun hcontra => Option.noConfusion hcontra

/-- C4 amended: whenever the per-pixel normalisers are nondegenerate
(invertible covariance for affine, `mu ≠ 0` for similarity and rigid), a
configuration with `p = q` maps every in-range canonical grid pixel to
itself, for all three variants. -/
theorem C4_identity_of_nondegenerate {n : ℕ} (rows cols : ℕ) (p : Fin n → ℂ)
    (alpha eps : ℝ) (i j : ℕ) (hn : 0 < n) (heps : 0 < eps)
    (hi : i < rows) (hj : j < cols)
    (hA : (affA (weight p alpha eps (vGrid i j)) p
        (cstar (weight p alpha eps (vGrid i j)) p)).det ≠ 0)
    (hmu : muSim (weight p alpha eps (vGrid i j)) p
        (cstar (weight p alpha eps (vGrid i j)) p) ≠ 0) :
    mls_affine_deformation rows cols vGrid p p alpha eps i j
        = some ((i : ℤ), (j : ℤ)) ∧
    mls_similarity_deformation rows cols vGrid p p alpha eps i j
        = some ((i : ℤ), (j : ℤ)) ∧
    mls_rigid_deformation rows cols vGrid p p alpha eps i j
        = some ((i : ℤ), (j : ℤ)) := by
  have hw : ∀ k, 0 ≤ weight p alpha eps (vGrid i j) k := fun k =>
    (weight_pos p alpha eps (vGrid i j) hn heps k).le
  refine ⟨?_, ?_, ?_⟩
  · rw [mls_affine_deformation]
    exact deform_self_pixel rows cols p alpha eps affine_solver i j
      (affine_solver_self _ _ _ _ hA) hi hj
  · rw [mls_similarity_deformation]
    exact deform_self_pixel rows cols p alpha eps similarity_solver i j
      (similarity_solver_self _ _ _ _ hmu) hi hj
  · rw [mls_rigid_deformation]
    exact deform_self_pixel rows cols p alpha eps rigid_solver i j
      (rigid_solver_self _ _ _ _ hw hmu) hi hj

lemma vGrid_zero : vGrid 0 0 = 0 := by
  apply Complex.ext
  · show ((0 : ℕ) : ℝ) = (0 : ℂ).re
    simp
  · show ((0 : ℕ) : ℝ) = (0 : ℂ).im
    simp

/-- Witness for the amended C4 at the concrete nondegenerate input
`p = q = [0, 1, i]` (three non-collinear control points), 1×1 grid,
`alpha = eps = 1`: the weights are `(1/2, 1/4, 1/4)`, the centroid is
`1/4 + i/4`, `mu = 3/8 ≠ 0` and `det A = 1/32 ≠ 0`. -/
theorem C4_identity_witness :
    mls_affine_deformation 1 1 vGrid (![0, 1, Complex.I] : Fin 3 → ℂ)
        ![0, 1, Complex.I] 1 1 0 0 = some ((0 : ℤ), (0 : ℤ)) ∧
    mls_similarity_deformation 1 1 vGrid (![0, 1, Complex.I] : Fin 3 → ℂ)
        ![0, 1, Complex.I] 1 1 0 0 = some ((0 : ℤ), (0 : ℤ)) ∧
    mls_rigid_deformation 1 1 vGrid (![0, 1, Complex.I] : Fin 3 → ℂ)
        ![0, 1, Complex.I] 1 1 0 0 = some ((0 : ℤ), (0 : ℤ)) := by
  have hraw0 : rawWeight (![0, 1, Complex.I] : Fin 3 → ℂ) 1 1 (vGrid 0 0) 0 = 1 := by
    rw [vGrid_zero]
    simp [rawWeight, Real.rpow_one]
  have hraw1 : rawWeight (![0, 1, Complex.I] : Fin 3 → ℂ) 1 1 (vGrid 0 0) 1 = 1 / 2 := by
    rw [vGrid_zero]
    simp [rawWeight, Real.rpow_one]
    norm_num
  have hraw2 : rawWeight (![0, 1, Complex.I] : Fin 3 → ℂ) 1 1 (vGrid 0 0) 2 = 1 / 2 := by
    rw [vGrid_zero]
    simp [rawWeight, Real.rpow_one, Complex.abs_I]
    norm_num
  have hwsum : wSum (![0, 1, Complex.I] : Fin 3 → ℂ) 1 1 (vGrid 0 0) = 2 := by
    rw [wSum, Fin.sum_univ_three, hraw0, hraw1, hraw2]
    norm_num
  have hw0 : weight (![0, 1, Complex.I] : Fin 3 → ℂ) 1 1 (vGrid 0 0) 0 = 1 / 2 := by
    rw [weight, hraw0, hwsum]
  have hw1 : weight (![0, 1, Complex.I] : Fin 3 → ℂ) 1 1 (vGrid 0 0) 1 = 1 / 4 := by
    rw [weight, hraw1, hwsum]
    norm_num
  have hw2 : weight (![0, 1, Complex.I] : Fin 3 → ℂ) 1 1 (vGrid 0 0) 2 = 1 / 4 := by
    rw [weight, hraw2, hwsum]
    norm_num
  have hps : cstar (weight (![0, 1, Complex.I] : Fin 3 → ℂ) 1 1 (vGrid 0 0))
      ![0, 1, Complex.I] = c2 (1 / 4) (1 / 4) := by
    rw [cstar, Fin.sum_univ_three, hw0, hw1, hw2]
    apply Complex.ext
    · simp [c2_re]
    · simp [c2_im]
  have hmu : muSim (weight (![0, 1, Complex.I] : Fin 3 → ℂ) 1 1 (vGrid 0 0))
      ![0, 1, Complex.I]
      (cstar (weight (![0, 1, Complex.I] : Fin 3 → ℂ) 1 1 (vGrid 0 0))
        ![0, 1, Complex.I]) ≠ 0 := by
    rw [muSim, Fin.sum_univ_three, hw0, hw1, hw2, hps]
    simp only [Complex.sq_abs, Complex.normSq_apply, Complex.sub_re, Complex.sub_im,
      c2_re, c2_im, Matrix.cons_val_zero, Matrix.cons_val_one, Matrix.head_cons,
      Matrix.cons_val_two, Matrix.tail_cons, Complex.zero_re, Complex.zero_im,
      Complex.one_re, Complex.one_im, Complex.I_re, Complex.I_im]
    norm_num
  have hAmat : affA (weight (![0, 1, Complex.I] : Fin 3 → ℂ) 1 1 (vGrid 0 0))
      ![0, 1, Complex.I]
      (cstar (weight (![0, 1, Complex.I] : Fin 3 → ℂ) 1 1 (vGrid 0 0))
        ![0, 1, Complex.I])
      = Matrix.of ![![3 / 16, -1 / 16], ![-1 / 16, 3 / 16]] := by
    rw [hps]
    ext a b
    rw [affA, Matrix.sum_apply, Fin.sum_univ_three, hw0, hw1, hw2]
    fin_cases a <;> fin_cases b <;>
      simp only [Matrix.smul_apply, outer, Matrix.of_apply, vec2, smul_eq_mul,
        Complex.sub_re, Complex.sub_im, c2_re, c2_im, Matrix.cons_val_zero,
        Matrix.cons_val_one, Matrix.head_cons, Matrix.cons_val_two, Matrix.tail_cons,
        Complex.zero_re, Complex.zero_im, Complex.one_re, Complex.one_im,
        Complex.I_re, Complex.I_im, Fin.isValue] <;>
      norm_num
  have hA : (affA (weight (![0, 1, Complex.I] : Fin 3 → ℂ) 1 1 (vGrid 0 0))
      ![0, 1, Complex.I]
      (cstar (weight (![0, 1, Complex.I] : Fin 3 → ℂ) 1 1 (vGrid 0 0))
        ![0, 1, Complex.I])).det ≠ 0 := by
    rw [hAmat, Matrix.det_fin_two]
    simp only [Matrix.of_apply, Matrix.cons_val_zero, Matrix.cons_val_one,
      Matrix.head_cons]
    norm_num
  exact C4_identity_of_nondegenerate 1 1 ![0, 1, Complex.I] 1 1 0 0
    (by norm_num) (by norm_num) (by norm_num) (by norm_num) hA hmu

/-- C5 counterexample: with the degenerate configuration
`p = q = [(0,0),(0,0)]` on a 3×3 grid, the cell at pixel (1,2) holds no
in-bounds integer coordinate at all: the code propagates a non-finite value
there. -/
theorem C5_counterexample :
    ¬ ∃ z : ℤ × ℤ, mls_rigid_deformation 3 3 vGrid (![0, 0] : Fin 2 → ℂ) ![0, 0] 1
        (1 / 100000000) 1 2 = some z := by
  have hp : ∀ k : Fin 2, (![0, 0] : Fin 2 → ℂ) k
      = cstar (weight (![0, 0] : Fin 2 → ℂ) 1 (1 / 100000000) (vGrid 1 2)) ![0, 0] := by
    have hc : cstar (weight (![0, 0] : Fin 2 → ℂ) 1 (1 / 100000000) (vGrid 1 2)) ![0, 0]
        = 0 := by
      simp [cstar, Fin.sum_univ_two]
    intro k
    rw [hc]
    fin_cases k <;> rfl
  obtain ⟨-, -, hr⟩ := solvers_none_of_coincident
    (weight (![0, 0] : Fin 2 → ℂ) 1 (1 / 100000000) (vGrid 1 2)) ![0, 0]
    (cstar (weight (![0, 0] : Fin 2 → ℂ) 1 (1 / 100000000) (vGrid 1 2)) ![0, 0]) ![0, 0]
    (cstar (weight (![0, 0] : Fin 2 → ℂ) 1 (1 / 100000000) (vGrid 1 2)) ![0, 0])
    (vGrid 1 2) hp
  simp only [mls_rigid_deformation, mls_deformation, hr, Option.map_none']
  rintro ⟨z, hz⟩
  exact Option.noConfusion hz

/-- C5 amended: at every pixel where the solver produces a (finite) value
`t`, the returned cell is exactly the truncation-toward-zero of `t` with its
real part clamped into `[0, rows-1]` and its imaginary part clamped into
`[0, cols-1]`, and it is in-bounds. -/
theorem C5_clamp_trunc {n : ℕ} (rows cols : ℕ) (grid : ℕ → ℕ → ℂ)
    (p q : Fin n → ℂ) (alpha eps : ℝ)
    (solver : (Fin n → ℝ) → (Fin n → ℂ) → ℂ → (Fin n → ℂ) → ℂ → ℂ → Option ℂ)
    (i j : ℕ) (t : ℂ)
    (hrows : 1 ≤ rows) (hcols : 1 ≤ cols)
    (hs : solver (weight q alpha eps (grid i j)) p
        (cstar (weight q alpha eps (grid i j)) p) q
        (cstar (weight q alpha eps (grid i j)) q) (grid i j) = some t) :
    mls_deformation rows cols grid p q alpha eps solver i j
      = some (truncZ (clampR ((rows : ℝ) - 1) t.re),
              truncZ (clampR ((cols : ℝ) - 1) t.im)) ∧
    0 ≤ truncZ (clampR ((rows : ℝ) - 1) t.re) ∧
    truncZ (clampR ((rows : ℝ) - 1) t.re) ≤ (rows : ℤ) - 1 ∧
    0 ≤ truncZ (clampR ((cols : ℝ) - 1) t.im) ∧
    truncZ (clampR ((cols : ℝ) - 1) t.im) ≤ (cols : ℤ) - 1 := by
  obtain ⟨h1, h2⟩ := truncZ_clampR_mem rows hrows t.re
  obtain ⟨h3, h4⟩ := truncZ_clampR_mem cols hcols t.im
  refine ⟨?_, h1, h2, h3, h4⟩
  simp only [mls_deformation]
  rw [hs, Option.map_some']

/-- Witness for C5 at the concrete input `p = q = [0, 1]`,
`rows = cols = 1`, `alpha = eps = 1`, where the similarity solver returns
the query point itself. -/
theorem C5_clamp_witness :
    mls_deformation 1 1 vGrid (![0, 1] : Fin 2 → ℂ) ![0, 1] 1 1
        similarity_solver 0 0
      = some (truncZ (clampR (((1 : ℕ) : ℝ) - 1) (vGrid 0 0).re),
              truncZ (clampR (((1 : ℕ) : ℝ) - 1) (vGrid 0 0).im)) ∧
    0 ≤ truncZ (clampR (((1 : ℕ) : ℝ) - 1) (vGrid 0 0).re) ∧
    truncZ (clampR (((1 : ℕ) : ℝ) - 1) (vGrid 0 0).re) ≤ ((1 : ℕ) : ℤ) - 1 ∧
    0 ≤ truncZ (clampR (((1 : ℕ) : ℝ) - 1) (vGrid 0 0).im) ∧
    truncZ (clampR (((1 : ℕ) : ℝ) - 1) (vGrid 0 0).im) ≤ ((1 : ℕ) : ℤ) - 1 :=
  C5_clamp_trunc 1 1 vGrid ![0, 1] ![0, 1] 1 1 similarity_solver 0 0 (vGrid 0 0)
    (by norm_num) (by norm_num)
    (similarity_solver_self _ _ _ _ (muSim_unit_square_pos 1 (vGrid 0 0)).ne')

/-- A weighted centroid of points with equal real and imaginary parts again
has equal real and imaginary parts. -/
lemma cstar_diag {n : ℕ} (w : Fin n → ℝ) (p : Fin n → ℂ)
    (hp : ∀ k, (p k).re = (p k).im) : (cstar w p).re = (cstar w p).im := by
  simp only [cstar, Complex.re_sum, Complex.im_sum]
  refine Finset.sum_congr rfl fun k _ => ?_
  simp [Complex.mul_re, Complex.mul_im, hp k]

lemma sub_diag (z pstar : ℂ) (hz : z.re = z.im) (hps : pstar.re = pstar.im) :
    (z - pstar).re = (z - pstar).im := by
  simp [Complex.sub_re, Complex.sub_im, hz, hps]

/-- When every `p k - pstar` has equal real and imaginary parts (collinear
configuration along the diagonal), the weighted covariance has four equal
entries, hence zero determinant: `torch.linalg.inv` has no finite result. -/
lemma affA_collinear_det_zero {n : ℕ} (w : Fin n → ℝ) (p : Fin n → ℂ)
    (pstar : ℂ) (hdiag : ∀ k, (p k - pstar).re = (p k - pstar).im) :
    (affA w p pstar).det = 0 := by
  have key : ∀ a b : Fin 2, affA w p pstar a b
      = ∑ k, w k * ((p k - pstar).re * (p k - pstar).re) := by
    intro a b
    simp only [affA, Matrix.sum_apply, Matrix.smul_apply, outer, Matrix.of_apply,
      smul_eq_mul]
    refine Finset.sum_congr rfl fun k _ => ?_
    have hv : ∀ c : Fin 2, vec2 (p k - pstar) c = (p k - pstar).re := by
      intro c
      fin_cases c
      · rfl
      · show (p k - pstar).im = (p k - pstar).re
        exact (hdiag k).symm
    rw [hv a, hv b]
  rw [Matrix.det_fin_two, key 0 0, key 1 1, key 0 1, key 1 0]
  ring

/-- C8: the affine solver does use `M = A⁻¹ B` with the stated `A` and `B`,
but the inverse is the generic `torch.linalg.inv`, not a singularity
detecting closed form: with the collinear control points
`p = [(0,0),(1,1)]`, `q = [(0,0),(2,2)]` the covariance is singular at every
pixel, and the call produces no finite result (the real code raises and
aborts the whole grid) instead of detecting the singularity per pixel. -/
theorem C8_singular_inv_aborts (i j : ℕ) :
    (affA (weight (![0, c2 2 2] : Fin 2 → ℂ) 1 (1 / 100000000) (vGrid i j)) ![0, c2 2 2]
      (cstar (weight (![0, c2 2 2] : Fin 2 → ℂ) 1 (1 / 100000000) (vGrid i j))
        ![0, c2 2 2])).det = 0 ∧
    mls_affine_deformation 2 2 vGrid (![0, c2 1 1] : Fin 2 → ℂ) ![0, c2 2 2] 1
      (1 / 100000000) i j = none := by
  have hpts : ∀ k : Fin 2, ((![0, c2 2 2] : Fin 2 → ℂ) k).re
      = ((![0, c2 2 2] : Fin 2 → ℂ) k).im := by
    intro k
    fin_cases k <;> rfl
  have hdiag : ∀ k : Fin 2, ((![0, c2 2 2] : Fin 2 → ℂ) k
      - cstar (weight (![0, c2 2 2] : Fin 2 → ℂ) 1 (1 / 100000000) (vGrid i j))
          ![0, c2 2 2]).re
      = ((![0, c2 2 2] : Fin 2 → ℂ) k
      - cstar (weight (![0, c2 2 2] : Fin 2 → ℂ) 1 (1 / 100000000) (vGrid i j))
          ![0, c2 2 2]).im :=
    fun k => sub_diag _ _ (hpts k) (cstar_diag _ _ hpts)
  have hdet := affA_collinear_det_zero
    (weight (![0, c2 2 2] : Fin 2 → ℂ) 1 (1 / 100000000) (vGrid i j)) ![0, c2 2 2]
    (cstar (weight (![0, c2 2 2] : Fin 2 → ℂ) 1 (1 / 100000000) (vGrid i j))
      ![0, c2 2 2]) hdiag
  refine ⟨hdet, ?_⟩
  have haff : affine_solver
      (weight (![0, c2 2 2] : Fin 2 → ℂ) 1 (1 / 100000000) (vGrid i j)) ![0, c2 1 1]
      (cstar (weight (![0, c2 2 2] : Fin 2 → ℂ) 1 (1 / 100000000) (vGrid i j))
        ![0, c2 1 1]) ![0, c2 2 2]
      (cstar (weight (![0, c2 2 2] : Fin 2 → ℂ) 1 (1 / 100000000) (vGrid i j))
        ![0, c2 2 2]) (vGrid i j) = none := by
    rw [affine_solver, if_pos hdet]
  simp only [mls_affine_deformation, mls_deformation, haff, Option.map_none']

/-- C9 counterexample: the invalid input `alpha = -1 < 0` is not rejected:
the call runs to completion and returns a full, ordinary result. -/
theorem C9_counterexample :
    ((-1 : ℝ) < 0) ∧
    mls_similarity_deformation 1 1 vGrid (![0, 1] : Fin 2 → ℂ) ![0, 1] (-1) 1 0 0
      = some ((0 : ℤ), (0 : ℤ)) :=
  ⟨by norm_num, sim_unit_square_all_alpha (-1)⟩

/-- C9 amended: the entry point performs no input validation at all — for
every `alpha`, including non-positive ones, the computation proceeds and
returns a full result. -/
theorem C9_no_validation (alpha : ℝ) :
    mls_similarity_deformation 1 1 vGrid (![0, 1] : Fin 2 → ℂ) ![0, 1] alpha 1 0 0
      = some ((0 : ℤ), (0 : ℤ)) :=
  sim_unit_square_all_alpha alpha

end

end MLS
